import Mathlib

/-!
# Verification of the synchronize/anonymize pipeline

Shallow embedding of the repository's change-capture / anonymize / checkpoint
pipeline (`sync.ts`, its randexp-based variant, and the shared `types.ts`
data model), together with theorems settling the frozen claims.

Modelling conventions:
* JS strings are Lean `String`s; `Date` values and Mongo `ObjectId`s are `Nat`s
  (only their equality/ordering is used by the code).
* Stateful pipeline code becomes explicit state passing: the feed consumer is a
  step function on a `FeedState`, and every database call is recorded in a
  chronological `trace` of `StoreOp` effects tagged with the target collection.
* The external collaborators that are not part of this repository
  (the `custom-hash` digest and the `randexp` generator) are modelled from the
  spec's collaborator contract; every such definition is marked in its
  doc comment.
-/

namespace Sync

/-- The three Mongo collections named in the constructor of
`CustomersAnonymizer` (`sync.ts`): the source `customers` collection, the
target `customers_anonymised` collection and the `customers_resume_token`
checkpoint collection. -/
inductive Coll
  | customers
  | customersAnonymised
  | customersResumeToken
deriving DecidableEq, Repr

/-- `IAddress` from `types.ts`. -/
structure IAddress where
  line1 : String
  line2 : String
  postcode : String
  city : String
  state : String
  country : String
deriving DecidableEq, Repr

/-- `ICustomer` from `types.ts`; `createdAt : Date` is modelled as a `Nat`
timestamp (milliseconds since epoch), which is all the code compares. -/
structure ICustomer where
  firstName : String
  lastName : String
  email : String
  address : IAddress
  createdAt : Nat
deriving DecidableEq, Repr

/-- `ICustomerDocument extends ICustomer` from `types.ts`; the Mongo
`_id : ObjectId | string` is modelled as a `Nat`. -/
structure ICustomerDocument extends ICustomer where
  _id : Nat
deriving DecidableEq, Repr

/-- Configuration constants of `CustomersAnonymizer` (`sync.ts` lines 70-72). -/
def maxWriteBatchSize : Nat := 100000

/-- `batchCount` from `sync.ts`: size threshold of the batch buffer. -/
def batchCount : Nat := 1000

/-- `saveIntervalTime` from `sync.ts` (milliseconds); in the untimed model the
timer period is represented by explicit `tick` events. -/
def saveIntervalTime : Nat := 1000

/-- `genCharArray` from `sync.ts`: all characters from `firstSymbol` to
`lastSymbol` inclusive, by character code. -/
def genCharArray (firstSymbol lastSymbol : Char) : List Char :=
  (List.range' firstSymbol.toNat (lastSymbol.toNat + 1 - firstSymbol.toNat)).map Char.ofNat

/-- `generateCharSet` from `sync.ts`: lowercase, uppercase, digits. -/
def generateCharSet : List Char :=
  genCharArray 'a' 'z' ++ genCharArray 'A' 'Z' ++ genCharArray '0' '9'

/-- The `maxLength` passed to `hash.configure` in `sync.ts` line 39. -/
def hashMaxLength : Nat := 8

/-- A deterministic numeric hash of a string (stateless, no randomness),
used as the numeric core of the modelled digest. -/
def stringHash (s : String) : Nat :=
  s.data.foldl (fun acc c => acc * 31 + c.toNat) 5381

/-- Modelled from the spec: the `custom-hash` npm package (not part of this
repository) configured via `hash.configure ... charSet ... maxLength ...` —
"a keyed/deterministic hash of the original value truncated/encoded to the
8-character alphabet": a pure function of the input that encodes a
deterministic numeric hash as exactly `maxLength` base-`charSet.length`
digits over `charSet`. -/
def digest (charSet : List Char) (maxLength : Nat) (input : String) : String :=
  String.mk ((List.range maxLength).map (fun i =>
    charSet.getD (stringHash input / charSet.length ^ i % charSet.length) 'a'))

/-- `generateHash` from `sync.ts` line 41: `hash.digest` with the configured
character set and maximum length. -/
def generateHash (input : String) : String :=
  digest generateCharSet hashMaxLength input

/-- `anonymizeEmail` from `sync.ts` lines 60-63:
`const [before, domain] = email.split("@")` destructures the split into its
first element and (optionally present) second element, and
`[generateHash(before), domain].join("@")` renders an absent second element
as the empty string. -/
def anonymizeEmail (email : String) : String :=
  let parts := email.split (fun c => c == '@')
  generateHash (parts.headD "") ++ "@" ++ (parts[1]?).getD ""

/-- `anonymize` from `sync.ts` lines 43-58. -/
def anonymize (customer : ICustomer) : ICustomer :=
  { firstName := generateHash customer.firstName
    lastName := generateHash customer.lastName
    email := anonymizeEmail customer.email
    address :=
      { line1 := generateHash customer.address.line1
        line2 := generateHash customer.address.line2
        postcode := generateHash customer.address.postcode
        city := customer.address.city
        country := customer.address.country
        state := customer.address.state }
    createdAt := customer.createdAt }

/-- `createCustomer` from `sync.ts` lines 203-218; `new Date(document.createdAt)`
copies the timestamp value. -/
def createCustomer (document : ICustomerDocument) : ICustomer :=
  { firstName := document.firstName
    lastName := document.lastName
    email := document.email
    address :=
      { line1 := document.address.line1
        line2 := document.address.line2
        postcode := document.address.postcode
        city := document.address.city
        state := document.address.state
        country := document.address.country }
    createdAt := document.createdAt }

/-- One `updateOne` entry of the bulk write built in `save`
(`sync.ts` lines 231-239): filter on `_id`, replacement document, upsert. -/
structure UpdateOneOp where
  filterId : Nat
  replacement : ICustomerDocument
  upsert : Bool
deriving DecidableEq, Repr

/-- The bulk operations built by `CustomersAnonymizer.save`
(`sync.ts` lines 223-240): each document is re-read as an `ICustomer`,
anonymized, given back its own `_id` (`new ObjectId(document._id)` copies the
id), and turned into an upsert keyed by that id. -/
def saveOps (documents : List ICustomerDocument) : List UpdateOneOp :=
  documents.map (fun document =>
    let customer := createCustomer document
    let anonymized := anonymize customer
    let bulkDocument : ICustomerDocument := { toICustomer := anonymized, _id := document._id }
    { filterId := bulkDocument._id, replacement := bulkDocument, upsert := true })

/-- One database call, tagged with its target collection.  `save coll batch`
stands for `coll.bulkWrite (saveOps batch)` (only issued for a non-empty
batch); `persistToken` stands for the resume-token upsert of
`saveResumeToken`; `find` stands for a read (point lookup or cursor). -/
inductive StoreOp
  | save (coll : Coll) (batch : List ICustomerDocument)
  | persistToken (coll : Coll) (token : Nat)
  | find (coll : Coll)
deriving DecidableEq, Repr

/-- Whether a database call writes to its collection. -/
def StoreOp.isWrite : StoreOp → Bool
  | .save _ _ => true
  | .persistToken _ _ => true
  | .find _ => false

/-- The collection a database call targets. -/
def StoreOp.target : StoreOp → Coll
  | .save c _ => c
  | .persistToken c _ => c
  | .find c => c

/-- The batch of a bulk-save call, when the call is one. -/
def pageOf : StoreOp → Option (List ICustomerDocument)
  | .save _ batch => some batch
  | _ => none

/-- The batches handed to `save` among a sequence of database calls. -/
def savedPages (ops : List StoreOp) : List (List ICustomerDocument) :=
  ops.filterMap pageOf

/-- An input to the feed consumer: a change-stream event (`changeStream.on`
callback of `watch`, `sync.ts` line 165, carrying an optional `fullDocument`
and the event's `_id` resume token) or one firing of the `setInterval` timer
installed by `startIntervalSave`. -/
inductive FeedEvent
  | change (fullDocument : Option ICustomerDocument) (token : Nat)
  | tick
deriving DecidableEq, Repr

/-- The mutable state of `CustomersAnonymizer` in feed mode, together with the
chronological trace of database calls it has issued. -/
structure FeedState where
  customerDocuments : List ICustomerDocument
  resumeToken : Option Nat
  trace : List StoreOp
deriving DecidableEq, Repr

/-- Feed-mode start state: empty buffer, no resume token loaded, no calls. -/
def initState : FeedState :=
  { customerDocuments := [], resumeToken := none, trace := [] }

/-- `saveResumeToken` from `sync.ts` lines 120-130: no-op when no token is
pending, otherwise an upsert of the pending token into the
`customers_resume_token` collection. -/
def saveResumeTokenStep (s : FeedState) : FeedState :=
  match s.resumeToken with
  | none => s
  | some token =>
    { s with trace := s.trace ++ [.persistToken .customersResumeToken token] }

/-- `CustomersAnonymizer.save` from `sync.ts` lines 220-243, at the effect
level: for a non-empty batch, one `bulkWrite` of `saveOps documents` against
the `customers_anonymised` collection; a no-op on an empty batch. -/
def saveStep (s : FeedState) (documents : List ICustomerDocument) : FeedState :=
  if documents.length > 0 then
    { s with trace := s.trace ++ [.save .customersAnonymised documents] }
  else s

/-- One atomic turn of the feed consumer (JavaScript runs each callback to
completion).  `change` is the handler of `sync.ts` lines 165-179: events
without a `fullDocument` are skipped; otherwise the pending resume token is
updated, the document is pushed, and once `batchCount` is reached the handler
calls `saveResumeToken()`, swaps the buffer out and calls `save` — in that
order.  `tick` is the interval callback of `startIntervalSave`
(`sync.ts` lines 187-194): `saveResumeToken()`, then `save` of the current
buffer, then the buffer is reset. -/
def step (s : FeedState) : FeedEvent → FeedState
  | .change none _ => s
  | .change (some document) token =>
    let s1 : FeedState :=
      { s with resumeToken := some token
               customerDocuments := s.customerDocuments ++ [document] }
    if batchCount ≤ s1.customerDocuments.length then
      let s2 := saveResumeTokenStep s1
      let customers := s2.customerDocuments
      let s3 := { s2 with customerDocuments := [] }
      saveStep s3 customers
    else s1
  | .tick =>
    let s1 := saveResumeTokenStep s
    let customers := s1.customerDocuments
    let s2 := saveStep s1 customers
    { s2 with customerDocuments := [] }

/-- Running the feed consumer over a sequence of events. -/
def run (s : FeedState) (events : List FeedEvent) : FeedState :=
  events.foldl step s

/-- The batches handed to `save` (hence to the target store), in order. -/
def flushedBatches (s : FeedState) : List (List ICustomerDocument) :=
  savedPages s.trace

/-- The document carried by an event, when it is a change event with a full
document. -/
def eventDoc : FeedEvent → Option ICustomerDocument
  | .change (some document) _ => some document
  | _ => none

/-- The loop body of `saveWithCursor` (`sync.ts` lines 132-147): page the
cursor's documents into batches handed to `save`, flushing whenever the
accumulated page reaches `maxWriteBatchSize` and once more at the end if a
partial page remains.  Returns the pages in the order they are saved;
`updateDocuments` is the accumulated partial page. -/
def saveWithCursorAux (size : Nat) :
    List ICustomerDocument → List ICustomerDocument → List (List ICustomerDocument)
  | [], updateDocuments =>
    if updateDocuments.length > 0 then [updateDocuments] else []
  | document :: rest, updateDocuments =>
    let pending := updateDocuments ++ [document]
    if size ≤ pending.length then pending :: saveWithCursorAux size rest []
    else saveWithCursorAux size rest pending

/-- `saveWithCursor` from `sync.ts`: the pages of the cursor's documents, each
passed to one `save` call. -/
def saveWithCursor (documents : List ICustomerDocument) : List (List ICustomerDocument) :=
  saveWithCursorAux maxWriteBatchSize documents []

/-- `fullReindex` from `sync.ts` lines 103-107, at the effect level: a cursor
read of the whole `customers` collection followed by one bulk save per page. -/
def fullReindexOps (source : List ICustomerDocument) : List StoreOp :=
  .find .customers :: (saveWithCursor source).map (.save .customersAnonymised)

/-- Mongo `updateOne` with a `filter` on `_id`, a full-document `$set` and
`upsert: true` (the shape built by `saveOps`): replace the first document
matching the filter; if none matches and `upsert` is set, insert the
replacement.  The target store is the list of documents in insertion order. -/
def applyUpdateOne : List ICustomerDocument → UpdateOneOp → List ICustomerDocument
  | [], op => if op.upsert then [op.replacement] else []
  | d :: ds, op =>
    if d._id = op.filterId then op.replacement :: ds
    else d :: applyUpdateOne ds op

/-- `collection.bulkWrite`: the update operations of one call, applied in
order as a single bulk operation. -/
def bulkWrite (store : List ICustomerDocument) (ops : List UpdateOneOp) :
    List ICustomerDocument :=
  ops.foldl applyUpdateOne store

/-- Number of documents in the store carrying a given `_id`. -/
def countId (store : List ICustomerDocument) (i : Nat) : Nat :=
  store.countP (fun d => d._id == i)

end Sync

namespace Randexp

/-- Modelled from the spec: the `randexp` npm package (not part of this
repository) applied to the pattern of `STRING_RULE_REGEX` — eight characters,
each drawn from the class of latin letters and digits.  `pick` models the
generator's random choices; theorems constrain it to the character class. -/
def generateRandomString (pick : Fin 8 → Char) : String :=
  String.mk (List.ofFn pick)

/-- The `find` with `sort createdAt descending, limit 1, project createdAt`
of `savePreviousCustomers` (randexp variant, lines 120-122): the creation
timestamp of a most-recently-created document of the target store, or `none`
when the store is empty. -/
def latestCreatedAt (target : List Sync.ICustomerDocument) : Option Nat :=
  match target with
  | [] => none
  | d :: ds => some (ds.foldl (fun m x => max m x.createdAt) d.createdAt)

/-- `savePreviousCustomers` from the randexp variant (lines 119-129), at the
effect level: read the newest anonymised record; if none, stop; otherwise open
a cursor over source records with `createdAt` greater than or equal to that
timestamp (`$gte`) and page them through `saveWithCursor`. -/
def savePreviousCustomersOps (source target : List Sync.ICustomerDocument) :
    List Sync.StoreOp :=
  Sync.StoreOp.find .customersAnonymised ::
    match latestCreatedAt target with
    | none => []
    | some createdAt =>
      Sync.StoreOp.find .customers ::
        (Sync.saveWithCursor (source.filter (fun d => createdAt ≤ d.createdAt))).map
          (Sync.StoreOp.save .customersAnonymised)

end Randexp

namespace Sync

/-- Spec-side helper: the substring of `s` before its first at sign (the
spec's "email local part"). -/
def localPart (s : String) : String :=
  String.mk (s.data.takeWhile (fun c => c ≠ '@'))

/-- Spec-side helper: the substring of `s` after its first at sign (the
spec's "entire domain"). -/
def domainAfterFirstAt (s : String) : String :=
  String.mk ((s.data.dropWhile (fun c => c ≠ '@')).tail)

/-- The alphabet of the spec's Transform contract: latin letters and digits. -/
def isAlphanumChar (c : Char) : Bool :=
  ('a' ≤ c && c ≤ 'z') || ('A' ≤ c && c ≤ 'Z') || ('0' ≤ c && c ≤ '9')

/-- A replacement value as the spec describes it: length exactly 8, every
character alphanumeric. -/
def len8Alphanum (s : String) : Prop :=
  s.length = 8 ∧ ∀ c ∈ s.data, isAlphanumChar c

/-- A sequence of `save` calls applied to the target store: each call applies
its single bulk operation `saveOps b` to the store. -/
def saveMany (store : List ICustomerDocument) (batches : List (List ICustomerDocument)) :
    List ICustomerDocument :=
  batches.foldl (fun st b => bulkWrite st (saveOps b)) store

/-- A sample customer document used by concrete witnesses. -/
def sampleDoc : ICustomerDocument :=
  { _id := 1
    firstName := "Alice"
    lastName := "Smith"
    email := "a@x.com"
    address :=
      { line1 := "1 Main St"
        line2 := "Flat 2"
        postcode := "AB1 2CD"
        city := "Springfield"
        state := "IL"
        country := "US" }
    createdAt := 5 }

/-- A second sample document sharing `sampleDoc`'s `_id`. -/
def sampleDoc2 : ICustomerDocument :=
  { sampleDoc with firstName := "Alicia", createdAt := 9 }

/-- A third sample document, older than `sampleDoc` and with its own id. -/
def sampleDocOld : ICustomerDocument :=
  { sampleDoc with _id := 2, createdAt := 3 }

lemma applyUpdateOne_idem (store : List ICustomerDocument) (op : UpdateOneOp)
    (hid : op.replacement._id = op.filterId) (hup : op.upsert = true) :
    applyUpdateOne (applyUpdateOne store op) op = applyUpdateOne store op := by
  induction store with
  | nil => simp [applyUpdateOne, hup, hid]
  | cons d ds ih =>
    by_cases h : d._id = op.filterId
    · simp [applyUpdateOne, h, hid]
    · simp [applyUpdateOne, h, ih]

lemma countId_cons (d : ICustomerDocument) (ds : List ICustomerDocument) (i : Nat) :
    countId (d :: ds) i = countId ds i + if d._id = i then 1 else 0 := by
  simp [countId, List.countP_cons]

lemma countId_applyUpdateOne_ne (store : List ICustomerDocument) (op : UpdateOneOp) (i : Nat)
    (hid : op.replacement._id = op.filterId) (hne : op.filterId ≠ i) :
    countId (applyUpdateOne store op) i = countId store i := by
  induction store with
  | nil =>
    cases hup : op.upsert <;>
      simp [applyUpdateOne, countId, hup, hid, hne]
  | cons d ds ih =>
    by_cases h : d._id = op.filterId
    · rw [applyUpdateOne, if_pos h, countId_cons, countId_cons, hid, h]
    · rw [applyUpdateOne, if_neg h, countId_cons, countId_cons, ih]

lemma countId_applyUpdateOne_eq (store : List ICustomerDocument) (op : UpdateOneOp)
    (hid : op.replacement._id = op.filterId) (hup : op.upsert = true) :
    countId (applyUpdateOne store op) op.filterId = max 1 (countId store op.filterId) := by
  induction store with
  | nil => simp [applyUpdateOne, countId, hup, hid]
  | cons d ds ih =>
    by_cases h : d._id = op.filterId
    · rw [applyUpdateOne, if_pos h, countId_cons, countId_cons, hid]
      simp [h]
    · rw [applyUpdateOne, if_neg h, countId_cons, countId_cons, ih]
      simp [h]

lemma saveOps_good (documents : List ICustomerDocument) :
    ∀ op ∈ saveOps documents, op.replacement._id = op.filterId ∧ op.upsert = true := by
  intro op hop
  rcases List.mem_map.mp hop with ⟨d, _, rfl⟩
  exact ⟨rfl, rfl⟩

lemma countId_bulkWrite (store : List ICustomerDocument) (ops : List UpdateOneOp) (i : Nat)
    (hgood : ∀ op ∈ ops, op.replacement._id = op.filterId ∧ op.upsert = true) :
    countId (bulkWrite store ops) i =
      if ops.any (fun op => op.filterId == i) then max 1 (countId store i)
      else countId store i := by
  induction ops generalizing store with
  | nil => simp [bulkWrite]
  | cons op rest ih =>
    have hop := hgood op (List.mem_cons_self op rest)
    have hrest : ∀ o ∈ rest, o.replacement._id = o.filterId ∧ o.upsert = true :=
      fun o ho => hgood o (List.mem_cons_of_mem op ho)
    show countId (bulkWrite (applyUpdateOne store op) rest) i = _
    rw [ih _ hrest]
    by_cases hfi : op.filterId = i
    · subst hfi
      rw [countId_applyUpdateOne_eq _ _ hop.1 hop.2]
      simp [List.any_cons]
    · rw [countId_applyUpdateOne_ne _ _ _ hop.1 hfi]
      simp [List.any_cons, beq_iff_eq, hfi]

lemma countId_saveMany (batches : List (List ICustomerDocument))
    (store : List ICustomerDocument) (i : Nat) (hwf : countId store i ≤ 1) :
    countId (saveMany store batches) i =
      if batches.any (fun b => b.any (fun d => d._id == i)) then 1 else countId store i := by
  induction batches generalizing store with
  | nil => simp [saveMany]
  | cons b rest ih =>
    have hany : (saveOps b).any (fun op => op.filterId == i) = b.any (fun d => d._id == i) := by
      induction b with
      | nil => rfl
      | cons d ds ihb => simp only [saveOps, List.map, List.any_cons] at ihb ⊢; rw [ihb]
    show countId (saveMany (bulkWrite store (saveOps b)) rest) i = _
    by_cases hb : b.any (fun d => d._id == i) = true
    · have h1 : countId (bulkWrite store (saveOps b)) i = 1 := by
        rw [countId_bulkWrite _ _ _ (saveOps_good b), hany, if_pos hb]
        omega
      rw [ih _ (by omega)]
      simp [List.any_cons, hb, h1]
    · have h0 : countId (bulkWrite store (saveOps b)) i = countId store i := by
        rw [countId_bulkWrite _ _ _ (saveOps_good b), hany, if_neg hb]
      rw [ih _ (by omega), h0]
      simp [List.any_cons, hb]

/-- C3: the sink is idempotent per id.  Starting from any target store in
which every id occurs at most once (Mongo's unique `_id` index), any sequence
of `save` calls — each one bulk operation of per-document upserts keyed by
the document's own id — leaves exactly one document for every id that occurs
in some saved batch, and never two documents for any id. -/
theorem c3_sink_upsert_idempotent :
    ∀ store : List ICustomerDocument, (∀ j, countId store j ≤ 1) →
    ∀ batches : List (List ICustomerDocument), ∀ i : Nat,
      ((∃ b ∈ batches, ∃ d ∈ b, d._id = i) →
        countId (saveMany store batches) i = 1) ∧
      (∀ j, countId (saveMany store batches) j ≤ 1) := by
  intro store hwf batches i
  constructor
  · intro hex
    rw [countId_saveMany _ _ _ (hwf i), if_pos]
    rcases hex with ⟨b, hb, d, hd, hdi⟩
    exact List.any_eq_true.mpr ⟨b, hb, List.any_eq_true.mpr ⟨d, hd, by simp [hdi]⟩⟩
  · intro j
    rw [countId_saveMany _ _ _ (hwf j)]
    split_ifs
    · omega
    · exact hwf j

/-- C3 witness: saving two (differing) records with the same id twice into an
empty store leaves exactly one document with that id. -/
theorem c3_witness :
    (∀ j, countId [] j ≤ 1) ∧
    countId (saveMany [] [[sampleDoc], [sampleDoc2]]) 1 = 1 :=
  ⟨fun j => by simp [countId],
   (c3_sink_upsert_idempotent [] (fun j => by simp [countId])
      [[sampleDoc], [sampleDoc2]] 1).1
     ⟨[sampleDoc], by simp, sampleDoc, by simp, rfl⟩⟩

lemma savedPages_map_save (c : Coll) (pages : List (List ICustomerDocument)) :
    savedPages (pages.map (StoreOp.save c)) = pages := by
  induction pages with
  | nil => rfl
  | cons p ps ih => simp [savedPages, List.filterMap_cons, pageOf] at ih ⊢; exact ih

lemma flatten_saveWithCursorAux (size : Nat) :
    ∀ (docs pending : List ICustomerDocument),
      (saveWithCursorAux size docs pending).flatten = pending ++ docs := by
  intro docs
  induction docs with
  | nil =>
    intro pending
    by_cases h : pending.length > 0 <;> simp [saveWithCursorAux, h]
    cases pending with
    | nil => rfl
    | cons a l => simp at h
  | cons d rest ih =>
    intro pending
    by_cases h : size ≤ pending.length + 1 <;>
      simp [saveWithCursorAux, List.length_append, h, ih]

lemma flatten_saveWithCursor (documents : List ICustomerDocument) :
    (saveWithCursor documents).flatten = documents := by
  rw [saveWithCursor, flatten_saveWithCursorAux]
  rfl

lemma foldlMax_le (ds : List ICustomerDocument) :
    ∀ a : Nat,
      a ≤ ds.foldl (fun m x => max m x.createdAt) a ∧
      ∀ d ∈ ds, d.createdAt ≤ ds.foldl (fun m x => max m x.createdAt) a := by
  induction ds with
  | nil => intro a; simp
  | cons d rest ih =>
    intro a
    simp only [List.foldl_cons]
    have h := ih (max a d.createdAt)
    refine ⟨le_trans (Nat.le_max_left _ _) h.1, ?_⟩
    intro x hx
    rcases List.mem_cons.mp hx with rfl | hx
    · exact le_trans (Nat.le_max_right _ _) h.1
    · exact h.2 x hx

lemma foldlMax_mem (ds : List ICustomerDocument) :
    ∀ a : Nat,
      ds.foldl (fun m x => max m x.createdAt) a = a ∨
        ∃ d ∈ ds, ds.foldl (fun m x => max m x.createdAt) a = d.createdAt := by
  induction ds with
  | nil => intro a; simp
  | cons d rest ih =>
    intro a
    simp only [List.foldl_cons]
    rcases ih (max a d.createdAt) with h3 | ⟨x, hx, h3⟩
    · rcases Nat.le_total a d.createdAt with hle | hle
      · right
        exact ⟨d, List.mem_cons_self d rest, by rw [h3, Nat.max_eq_right hle]⟩
      · left
        rw [h3, Nat.max_eq_left hle]
    · right
      exact ⟨x, List.mem_cons_of_mem d hx, h3⟩

/-- C7: the incremental backfill boundary.  When the target store is empty,
`savePreviousCustomers` issues only the target-store lookup: no source cursor
is opened and no write is issued.  When the target store's newest record has
creation timestamp `t`, the records passed to the Sink Writer (all saved
pages, concatenated) are exactly the source records with `createdAt ≥ t` —
the boundary record included, none below the boundary — and `t` is indeed
the timestamp of a most-recently-created target record. -/
theorem c7_incremental_backfill_boundary :
    (∀ source : List ICustomerDocument,
      Randexp.savePreviousCustomersOps source [] = [.find .customersAnonymised]) ∧
    (∀ source target : List ICustomerDocument, ∀ t : Nat,
      Randexp.latestCreatedAt target = some t →
      ((savedPages (Randexp.savePreviousCustomersOps source target)).flatten =
          source.filter (fun d => t ≤ d.createdAt)) ∧
      (∃ d ∈ target, d.createdAt = t) ∧
      (∀ d ∈ target, d.createdAt ≤ t)) := by
  constructor
  · intro source
    rfl
  · intro source target t ht
    cases target with
    | nil => simp [Randexp.latestCreatedAt] at ht
    | cons d0 ds =>
      have ht' : ds.foldl (fun m x => max m x.createdAt) d0.createdAt = t := by
        simpa [Randexp.latestCreatedAt] using ht
      have hops : Randexp.savePreviousCustomersOps source (d0 :: ds) =
          StoreOp.find .customersAnonymised :: StoreOp.find .customers ::
            (saveWithCursor (source.filter (fun d => t ≤ d.createdAt))).map
              (StoreOp.save .customersAnonymised) := by
        simp only [Randexp.savePreviousCustomersOps, ht]
      refine ⟨?_, ?_, ?_⟩
      · rw [hops]
        show (savedPages ((saveWithCursor (source.filter (fun d => t ≤ d.createdAt))).map
            (StoreOp.save .customersAnonymised))).flatten = _
        rw [savedPages_map_save, flatten_saveWithCursor]
      · rcases foldlMax_mem ds d0.createdAt with h | ⟨x, hx, h⟩
        · exact ⟨d0, List.mem_cons_self d0 ds, by rw [← ht']; exact h.symm⟩
        · exact ⟨x, List.mem_cons_of_mem d0 hx, by rw [← ht']; exact h.symm⟩
      · intro d hd
        rcases List.mem_cons.mp hd with rfl | h
        · rw [← ht']
          exact (foldlMax_le ds _).1
        · rw [← ht']
          exact (foldlMax_le ds _).2 d h

/-- C7 witness: with one target record of timestamp 5, backfilling a source
holding records of timestamps 9 and 3 passes exactly the records with
timestamp at least 5 to the Sink Writer. -/
theorem c7_witness :
    Randexp.latestCreatedAt [sampleDoc] = some 5 ∧
    (savedPages (Randexp.savePreviousCustomersOps
        [sampleDoc2, sampleDocOld] [sampleDoc])).flatten =
      [sampleDoc2, sampleDocOld].filter (fun d => 5 ≤ d.createdAt) :=
  ⟨rfl,
   (c7_incremental_backfill_boundary.2 [sampleDoc2, sampleDocOld] [sampleDoc] 5 rfl).1⟩

/-- C2: `anonymize` copies `createdAt`, `address.city`, `address.state` and
`address.country` verbatim, and `save` keys every upsert by the record's own
id: each bulk operation built from a document filters on that document's
`_id` and writes a replacement carrying the same `_id`. -/
theorem c2_anonymize_preserves_and_save_keys_by_id :
    (∀ r : ICustomer,
      (anonymize r).createdAt = r.createdAt ∧
      (anonymize r).address.city = r.address.city ∧
      (anonymize r).address.state = r.address.state ∧
      (anonymize r).address.country = r.address.country) ∧
    (∀ documents : List ICustomerDocument, ∀ op ∈ saveOps documents,
      ∃ document ∈ documents,
        op.filterId = document._id ∧ op.replacement._id = document._id) ∧
    (∀ documents : List ICustomerDocument,
      (saveOps documents).map (fun op => op.filterId) =
        documents.map (fun document => document._id)) := by
  refine ⟨fun r => ⟨rfl, rfl, rfl, rfl⟩, ?_, ?_⟩
  · intro documents op hop
    rcases List.mem_map.mp hop with ⟨document, hmem, hop⟩
    exact ⟨document, hmem, by rw [← hop], by rw [← hop]⟩
  · intro documents
    simp [saveOps]

/-- C2 witness: the theorem's per-operation part applied at the concrete
one-document batch `[sampleDoc]` and its first bulk operation. -/
theorem c2_witness :
    ∃ document ∈ [sampleDoc],
      ((saveOps [sampleDoc]).headD
          { filterId := 0, replacement := sampleDoc, upsert := false }).filterId =
        document._id ∧
      ((saveOps [sampleDoc]).headD
          { filterId := 0, replacement := sampleDoc, upsert := false }).replacement._id =
        document._id :=
  c2_anonymize_preserves_and_save_keys_by_id.2.1 [sampleDoc] _ (by simp [saveOps])

lemma splitAtSign (l d : String) (hl : '@' ∉ l.data) (hd : '@' ∉ d.data) :
    (l ++ "@" ++ d).split (fun c => c == '@') = [l, d] := by
  rw [String.split_of_valid]
  have hdata : (l ++ "@" ++ d).data = l.data ++ '@' :: d.data := by
    simp [String.data_append]
  rw [hdata, List.splitOnP_first _ l.data
    (fun x hx => by simp only [beq_iff_eq]; exact fun h => hl (h ▸ hx)) '@' (by simp) d.data]
  rw [List.splitOnP_eq_single _ _
    (fun x hx => by simp only [beq_iff_eq]; exact fun h => hd (h ▸ hx))]
  rfl

/-- C4, counterexample: for an email with two at signs the code does NOT
preserve the substring after the first at sign.  `"a@b@c"` has local part
`"a"` and (per the claim) domain `"b@c"`, but the destructuring
`const [before, domain] = email.split("@")` keeps only the second split
segment `"b"`, so everything after the second at sign is dropped. -/
theorem c4_counterexample :
    ("a@b@c".data.count '@' = 2) ∧
    anonymizeEmail "a@b@c" ≠
      generateHash (localPart "a@b@c") ++ "@" ++ domainAfterFirstAt "a@b@c" := by
  constructor
  · decide
  · rw [anonymizeEmail, String.split_of_valid]
    decide

/-- C4, amended: for every email with exactly one at sign — written
`l ++ "@" ++ d` with `l` and `d` free of at signs — `anonymizeEmail` replaces
the local part with the generated string and preserves the domain, re-joining
with an at sign.  (For emails with more than one at sign only the segment
between the first and second at sign is kept, as the counterexample shows.) -/
theorem c4_amended (l d : String) (hl : '@' ∉ l.data) (hd : '@' ∉ d.data) :
    anonymizeEmail (l ++ "@" ++ d) = generateHash l ++ "@" ++ d := by
  simp [anonymizeEmail, splitAtSign l d hl hd]

/-- C4 witness: the amended theorem at the concrete email `alice@x.com`. -/
theorem c4_amended_witness :
    '@' ∉ "alice".data ∧ '@' ∉ "x.com".data ∧
    anonymizeEmail ("alice" ++ "@" ++ "x.com") = generateHash "alice" ++ "@" ++ "x.com" :=
  ⟨by decide, by decide, c4_amended "alice" "x.com" (by decide) (by decide)⟩

lemma mem_generateCharSet_alphanum : ∀ c ∈ generateCharSet, isAlphanumChar c := by
  decide

lemma generateCharSet_length_pos : 0 < generateCharSet.length := by decide

lemma generateHash_len8Alphanum (input : String) : len8Alphanum (generateHash input) := by
  constructor
  · simp [generateHash, digest, String.length, hashMaxLength]
  · intro c hc
    have hc' : c ∈ (List.range hashMaxLength).map (fun i =>
        generateCharSet.getD
          (stringHash input / generateCharSet.length ^ i % generateCharSet.length) 'a') := hc
    rcases List.mem_map.mp hc' with ⟨i, _, hfc⟩
    apply mem_generateCharSet_alphanum
    rw [← hfc]
    have hlt : stringHash input / generateCharSet.length ^ i % generateCharSet.length <
        generateCharSet.length := Nat.mod_lt _ generateCharSet_length_pos
    rw [List.getD_eq_getElem _ _ hlt]
    exact List.getElem_mem hlt

/-- C5: every replacement value is a string of length exactly 8 over the
alphabet of latin letters and digits, for both generator strategies: the
keyed-hash generator of `sync.ts` (every `generateHash` output, hence the
replacements of given name, family name, line1, line2 and postcode produced
by `anonymize`, and the email local-part replacement inside `anonymizeEmail`),
and the random-pattern generator of the randexp variant, whose character
picks come from the class of the pattern. -/
theorem c5_generated_values_length8_alphanumeric :
    (∀ input : String, len8Alphanum (generateHash input)) ∧
    (∀ r : ICustomer,
      len8Alphanum ((anonymize r).firstName) ∧
      len8Alphanum ((anonymize r).lastName) ∧
      len8Alphanum ((anonymize r).address.line1) ∧
      len8Alphanum ((anonymize r).address.line2) ∧
      len8Alphanum ((anonymize r).address.postcode)) ∧
    (∀ pick : Fin 8 → Char, (∀ i, isAlphanumChar (pick i)) →
      len8Alphanum (Randexp.generateRandomString pick)) := by
  refine ⟨generateHash_len8Alphanum, ?_, ?_⟩
  · intro r
    exact ⟨generateHash_len8Alphanum _, generateHash_len8Alphanum _,
      generateHash_len8Alphanum _, generateHash_len8Alphanum _,
      generateHash_len8Alphanum _⟩
  · intro pick hpick
    constructor
    · simp [Randexp.generateRandomString, String.length]
    · intro c hc
      have hc' : c ∈ List.ofFn pick := hc
      rcases (List.mem_ofFn pick c).mp hc' with ⟨i, hi⟩
      exact hi ▸ hpick i

/-- C5 witness: the random-pattern half of the theorem applied to the
constant pick of the letter a. -/
theorem c5_witness :
    (∀ i : Fin 8, isAlphanumChar ((fun _ : Fin 8 => 'a') i)) ∧
    len8Alphanum (Randexp.generateRandomString (fun _ => 'a')) :=
  ⟨by decide, c5_generated_values_length8_alphanumeric.2.2 (fun _ => 'a') (by decide)⟩

/-- C8: a change-feed event carrying no full document is skipped: the handler
returns with the state (buffer, pending token, issued calls) unchanged, and
deleting such an event anywhere in an event sequence does not alter the run's
final state — so the skipped record appears in no batch and later events are
processed exactly as before. -/
theorem c8_skipped_events_no_effect :
    (∀ s : FeedState, ∀ token, step s (.change none token) = s) ∧
    (∀ s : FeedState, ∀ events1 events2 : List FeedEvent, ∀ token,
      run s (events1 ++ FeedEvent.change none token :: events2) =
        run s (events1 ++ events2)) := by
  refine ⟨fun s token => rfl, fun s events1 events2 token => ?_⟩
  simp [run, List.foldl_append]
  rfl

/-- C10: the resume-token pipeline's transform is deterministic — the embedded
`anonymize` (whose generator is the configure-once, stateless `custom-hash`
digest) is a pure function, so two evaluations on the same record agree; as a
consequence, re-saving the same source document is a no-op on the target
store: the second bulk upsert replaces the document with an identical one. -/
theorem c10_transform_deterministic :
    (∀ c : ICustomer, anonymize c = anonymize c) ∧
    (∀ store : List ICustomerDocument, ∀ d : ICustomerDocument,
      bulkWrite (bulkWrite store (saveOps [d])) (saveOps [d]) =
        bulkWrite store (saveOps [d])) := by
  refine ⟨fun c => rfl, fun store d => ?_⟩
  simp only [saveOps, List.map, bulkWrite, List.foldl]
  exact applyUpdateOne_idem store _ rfl rfl

lemma step_change_none (s : FeedState) (token : Nat) :
    step s (.change none token) = s := rfl

lemma step_change_some_noflush (s : FeedState) (d : ICustomerDocument) (token : Nat)
    (h : s.customerDocuments.length + 1 < batchCount) :
    step s (.change (some d) token) =
      { s with resumeToken := some token,
               customerDocuments := s.customerDocuments ++ [d] } := by
  rw [step]
  simp only [List.length_append, List.length_cons, List.length_nil]
  rw [if_neg (by omega)]

lemma step_change_some_flush (s : FeedState) (d : ICustomerDocument) (token : Nat)
    (h : batchCount ≤ s.customerDocuments.length + 1) :
    step s (.change (some d) token) =
      { s with resumeToken := some token,
               customerDocuments := [],
               trace := s.trace ++
                 [.persistToken .customersResumeToken token,
                  .save .customersAnonymised (s.customerDocuments ++ [d])] } := by
  rw [step]
  simp only [List.length_append, List.length_cons, List.length_nil]
  rw [if_pos (by omega)]
  simp [saveResumeTokenStep, saveStep]

lemma length_filterMap_eventDoc (events : List FeedEvent)
    (h : ∀ e ∈ events, (eventDoc e).isSome) :
    (events.filterMap eventDoc).length = events.length := by
  induction events with
  | nil => rfl
  | cons e rest ih =>
    have he := h e (List.mem_cons_self e rest)
    match e, he with
    | .change (some d) token, _ =>
      simp only [List.filterMap_cons, eventDoc, List.length_cons]
      rw [ih (fun x hx => h x (List.mem_cons_of_mem _ hx))]

lemma run_noflush (events : List FeedEvent) :
    ∀ s : FeedState, (∀ e ∈ events, (eventDoc e).isSome) →
      s.customerDocuments.length + events.length < batchCount →
      (run s events).customerDocuments =
          s.customerDocuments ++ events.filterMap eventDoc ∧
      (run s events).trace = s.trace := by
  induction events with
  | nil => intro s _ _; simp [run]
  | cons e rest ih =>
    intro s hsome hlen
    have he := hsome e (List.mem_cons_self e rest)
    match e, he with
    | .change (some d) token, _ =>
      have hrun : run s (FeedEvent.change (some d) token :: rest) =
          run (step s (.change (some d) token)) rest := rfl
      simp only [List.length_cons] at hlen
      rw [hrun, step_change_some_noflush s d token (by omega)]
      have hih := ih { s with resumeToken := some token,
                              customerDocuments := s.customerDocuments ++ [d] }
        (fun x hx => hsome x (List.mem_cons_of_mem _ hx))
        (by simp only [List.length_append, List.length_cons, List.length_nil]; omega)
      simp only [List.filterMap_cons, eventDoc] at hih ⊢
      rw [hih.1, hih.2]
      simp [List.append_assoc]

lemma savedPages_append (a b : List StoreOp) :
    savedPages (a ++ b) = savedPages a ++ savedPages b := by
  simp [savedPages, List.filterMap_append]

lemma step_tick_effect (s : FeedState) :
    (step s .tick).customerDocuments = [] ∧
    savedPages (step s .tick).trace =
      savedPages s.trace ++
        (if s.customerDocuments.length > 0 then [s.customerDocuments] else []) := by
  cases h : s.resumeToken with
  | none =>
    by_cases hb : s.customerDocuments.length > 0 <;>
      simp [step, saveResumeTokenStep, h, saveStep, hb, savedPages_append, savedPages, pageOf]
  | some token =>
    by_cases hb : s.customerDocuments.length > 0 <;>
      simp [step, saveResumeTokenStep, h, saveStep, hb, savedPages_append, savedPages, pageOf]

lemma size_flush_run (events : List FeedEvent)
    (hsome : ∀ e ∈ events, (eventDoc e).isSome)
    (hlen : events.length = batchCount) :
    (run initState events).customerDocuments = [] ∧
    flushedBatches (run initState events) = [events.filterMap eventDoc] := by
  have hne : events ≠ [] := by
    intro h
    rw [h] at hlen
    simp [batchCount] at hlen
  obtain ⟨front, last, rfl⟩ : ∃ f l, events = f ++ [l] :=
    ⟨events.dropLast, events.getLast hne, (List.dropLast_append_getLast hne).symm⟩
  have hrun : run initState (front ++ [last]) = step (run initState front) last := by
    simp [run, List.foldl_append]
  have hfl : front.length + 1 = batchCount := by
    simpa [List.length_append] using hlen
  have hfront := run_noflush front initState
    (fun x hx => hsome x (List.mem_append_left _ hx)) (by simp [initState]; omega)
  have hfrontlen : ((run initState front).customerDocuments).length = front.length := by
    rw [hfront.1]
    simp only [initState, List.nil_append]
    exact length_filterMap_eventDoc front (fun x hx => hsome x (List.mem_append_left _ hx))
  have hlast := hsome last (List.mem_append_right _ (List.mem_cons_self _ _))
  match last, hlast with
  | .change (some d) token, _ =>
    rw [hrun, step_change_some_flush _ d token (by omega)]
    constructor
    · rfl
    · simp only [flushedBatches, savedPages_append]
      rw [hfront.2, hfront.1]
      simp [savedPages, pageOf, List.filterMap_append, List.filterMap_cons, eventDoc, initState]

lemma timer_flush_run (events : List FeedEvent)
    (hsome : ∀ e ∈ events, (eventDoc e).isSome)
    (hpos : 0 < events.length) (hlen : events.length < batchCount) :
    (run initState (events ++ [.tick])).customerDocuments = [] ∧
    flushedBatches (run initState (events ++ [.tick])) = [events.filterMap eventDoc] := by
  have hrun : run initState (events ++ [.tick]) = step (run initState events) .tick := by
    simp [run, List.foldl_append]
  have hfront := run_noflush events initState hsome (by simp [initState]; omega)
  have hflen : ((run initState events).customerDocuments).length = events.length := by
    rw [hfront.1]
    simp only [initState, List.nil_append]
    exact length_filterMap_eventDoc events hsome
  have heff := step_tick_effect (run initState events)
  rw [hrun]
  refine ⟨heff.1, ?_⟩
  rw [flushedBatches, heff.2, if_pos (by omega), hfront.2, hfront.1]
  simp [savedPages, initState]

lemma conservation (events : List FeedEvent) :
    ∀ s : FeedState,
      (flushedBatches (run s events)).flatten ++ (run s events).customerDocuments =
        (flushedBatches s).flatten ++ s.customerDocuments ++ events.filterMap eventDoc := by
  induction events with
  | nil => intro s; simp [run]
  | cons e rest ih =>
    intro s
    have hrun : run s (e :: rest) = run (step s e) rest := rfl
    rw [hrun, ih]
    suffices h : (flushedBatches (step s e)).flatten ++ (step s e).customerDocuments =
        (flushedBatches s).flatten ++ s.customerDocuments ++ (eventDoc e).toList by
      rw [h]
      simp [List.filterMap_cons]
      cases he : eventDoc e <;> simp [List.append_assoc]
    cases e with
    | tick =>
      have heff := step_tick_effect s
      rw [flushedBatches, heff.2, heff.1]
      by_cases hb : s.customerDocuments.length > 0
      · rw [if_pos hb]
        simp [flushedBatches, eventDoc]
      · rw [if_neg hb]
        have : s.customerDocuments = [] := by
          cases h : s.customerDocuments with
          | nil => rfl
          | cons a l => rw [h] at hb; simp at hb
        simp [flushedBatches, eventDoc, this]
    | change fd token =>
      cases fd with
      | none => simp [step_change_none, eventDoc]
      | some d =>
        by_cases h : batchCount ≤ s.customerDocuments.length + 1
        · rw [step_change_some_flush _ _ _ h]
          simp [flushedBatches, savedPages_append, savedPages, pageOf, eventDoc,
            List.append_assoc]
        · rw [step_change_some_noflush _ _ _ (by omega)]
          simp [flushedBatches, eventDoc, List.append_assoc]

/-- C1 (claim refuted by the code): in both flush paths the checkpoint write
is issued BEFORE the batch save, not after its successful completion.  First
conjunct: a run of one change event (token 7) followed by a timer tick issues
the resume-token upsert before the bulk save of the drained batch.  Second
conjunct: a size-triggered flush (buffer at `batchCount - 1`, one more change
event) likewise persists the token of the batch's last event before saving
the batch.  The source awaits neither call (`saveResumeToken(); ...
this.save(customers)` in the change handler and the interval callback). -/
theorem c1_checkpoint_persisted_before_batch_save :
    (run initState [.change (some sampleDoc) 7, .tick]).trace =
      [.persistToken .customersResumeToken 7,
       .save .customersAnonymised [sampleDoc]] ∧
    (step { customerDocuments := List.replicate (batchCount - 1) sampleDoc,
            resumeToken := none, trace := [] }
        (.change (some sampleDoc2) 42)).trace =
      [.persistToken .customersResumeToken 42,
       .save .customersAnonymised
         (List.replicate (batchCount - 1) sampleDoc ++ [sampleDoc2])] := by
  constructor
  · decide
  · rw [step_change_some_flush _ _ _ (by rw [List.length_replicate]; omega)]
    rfl

/-- C6: buffer trigger correctness.  (1) `batchCount` change events carrying
documents, with no timer tick, produce exactly one size-triggered flush
holding all `batchCount` documents in arrival order and leave the buffer
empty.  (2) Fewer (but at least one) such events followed by one timer tick
produce exactly one timer-triggered flush holding all of them, and leave the
buffer empty.  (3) Over any event sequence, no record is delivered in two
flushed batches: each document occurs in the concatenation of all flushed
batches at most as often as it arrived. -/
theorem c6_buffer_trigger_correctness :
    (∀ events : List FeedEvent, (∀ e ∈ events, (eventDoc e).isSome) →
      events.length = batchCount →
      (run initState events).customerDocuments = [] ∧
      flushedBatches (run initState events) = [events.filterMap eventDoc]) ∧
    (∀ events : List FeedEvent, (∀ e ∈ events, (eventDoc e).isSome) →
      0 < events.length → events.length < batchCount →
      (run initState (events ++ [.tick])).customerDocuments = [] ∧
      flushedBatches (run initState (events ++ [.tick])) = [events.filterMap eventDoc]) ∧
    (∀ events : List FeedEvent, ∀ d : ICustomerDocument,
      (flushedBatches (run initState events)).flatten.count d ≤
        (events.filterMap eventDoc).count d) := by
  refine ⟨size_flush_run, timer_flush_run, ?_⟩
  intro events d
  have h := conservation events initState
  have h0 : (flushedBatches initState).flatten ++ initState.customerDocuments ++
      events.filterMap eventDoc = events.filterMap eventDoc := by
    simp [initState, flushedBatches, savedPages]
  rw [h0] at h
  have hc := congrArg (List.count d) h
  rw [List.count_append] at hc
  omega

/-- C6 witness: the size trigger at exactly `batchCount` replicated events,
and the timer trigger at a single buffered event. -/
theorem c6_witness :
    ((run initState (List.replicate batchCount (FeedEvent.change (some sampleDoc) 0))).customerDocuments = [] ∧
      flushedBatches (run initState (List.replicate batchCount (FeedEvent.change (some sampleDoc) 0))) =
        [(List.replicate batchCount (FeedEvent.change (some sampleDoc) 0)).filterMap eventDoc]) ∧
    ((run initState ([FeedEvent.change (some sampleDoc) 3] ++ [.tick])).customerDocuments = [] ∧
      flushedBatches (run initState ([FeedEvent.change (some sampleDoc) 3] ++ [.tick])) =
        [[FeedEvent.change (some sampleDoc) 3].filterMap eventDoc]) :=
  ⟨c6_buffer_trigger_correctness.1 _ (fun e he => by rw [List.eq_of_mem_replicate he]; rfl) (by simp),
   c6_buffer_trigger_correctness.2.1 _ (fun e he => by rw [List.mem_singleton.mp he]; rfl) (by simp)
     (by decide)⟩

lemma step_trace_extension (s : FeedState) (e : FeedEvent) :
    ∃ tail : List StoreOp,
      (step s e).trace = s.trace ++ tail ∧
      ∀ op ∈ tail, op.isWrite → op.target ≠ Coll.customers := by
  cases e with
  | tick =>
    cases h : s.resumeToken with
    | none =>
      by_cases hb : s.customerDocuments.length > 0
      · exact ⟨[.save .customersAnonymised s.customerDocuments], by
          simp [step, saveResumeTokenStep, h, saveStep, hb], by
          intro op hop _
          rw [List.mem_singleton.mp hop]
          simp [StoreOp.target]⟩
      · exact ⟨[], by simp [step, saveResumeTokenStep, h, saveStep, hb], by simp⟩
    | some token =>
      by_cases hb : s.customerDocuments.length > 0
      · exact ⟨[.persistToken .customersResumeToken token,
                .save .customersAnonymised s.customerDocuments], by
          simp [step, saveResumeTokenStep, h, saveStep, hb], by
          intro op hop _
          rcases List.mem_cons.mp hop with rfl | hop
          · simp [StoreOp.target]
          · rw [List.mem_singleton.mp hop]
            simp [StoreOp.target]⟩
      · exact ⟨[.persistToken .customersResumeToken token], by
          simp [step, saveResumeTokenStep, h, saveStep, hb], by
          intro op hop _
          rw [List.mem_singleton.mp hop]
          simp [StoreOp.target]⟩
  | change fd token =>
    cases fd with
    | none => exact ⟨[], by simp [step_change_none], by simp⟩
    | some d =>
      by_cases hflush : batchCount ≤ s.customerDocuments.length + 1
      · refine ⟨[.persistToken .customersResumeToken token,
                 .save .customersAnonymised (s.customerDocuments ++ [d])], ?_, ?_⟩
        · rw [step_change_some_flush _ _ _ hflush]
        · intro op hop _
          rcases List.mem_cons.mp hop with rfl | hop
          · simp [StoreOp.target]
          · rw [List.mem_singleton.mp hop]
            simp [StoreOp.target]
      · exact ⟨[], by rw [step_change_some_noflush _ _ _ (by omega)]; simp, by simp⟩

lemma run_trace_invariant (events : List FeedEvent) :
    ∀ s : FeedState,
      (∀ op ∈ s.trace, op.isWrite → op.target ≠ Coll.customers) →
      ∀ op ∈ (run s events).trace, op.isWrite → op.target ≠ Coll.customers := by
  induction events with
  | nil => intro s hs; exact hs
  | cons e rest ih =>
    intro s hs
    have hrun : run s (e :: rest) = run (step s e) rest := rfl
    rw [hrun]
    rcases step_trace_extension s e with ⟨tail, htr, htail⟩
    apply ih
    rw [htr]
    intro op hop
    rcases List.mem_append.mp hop with h | h
    · exact hs op h
    · exact htail op h

/-- C9: no operation of the pipeline ever writes to the source `customers`
collection.  Every write issued by a feed-mode run (batch saves and
checkpoint persists), by a full reindex, and by the incremental backfill
targets only the `customers_anonymised` or `customers_resume_token`
collections; the `customers` collection is only read. -/
theorem c9_no_writes_to_source_collection :
    (∀ events : List FeedEvent, ∀ op ∈ (run initState events).trace,
      op.isWrite → op.target ≠ Coll.customers) ∧
    (∀ source : List ICustomerDocument, ∀ op ∈ fullReindexOps source,
      op.isWrite → op.target ≠ Coll.customers) ∧
    (∀ source target : List ICustomerDocument,
      ∀ op ∈ Randexp.savePreviousCustomersOps source target,
      op.isWrite → op.target ≠ Coll.customers) := by
  refine ⟨?_, ?_, ?_⟩
  · intro events
    exact run_trace_invariant events initState (by simp [initState])
  · intro source op hop
    rcases List.mem_cons.mp hop with rfl | hop
    · intro h; simp [StoreOp.isWrite] at h
    · rcases List.mem_map.mp hop with ⟨page, _, rfl⟩
      intro _
      simp [StoreOp.target]
  · intro source target op hop
    rcases List.mem_cons.mp hop with rfl | hop
    · intro h; simp [StoreOp.isWrite] at h
    · cases hl : Randexp.latestCreatedAt target with
      | none => simp only [Randexp.savePreviousCustomersOps, hl] at hop; simp at hop
      | some t =>
        simp only [Randexp.savePreviousCustomersOps, hl] at hop
        rcases List.mem_cons.mp hop with rfl | hop
        · intro h; simp [StoreOp.isWrite] at h
        · rcases List.mem_map.mp hop with ⟨page, _, rfl⟩
          intro _
          simp [StoreOp.target]

/-- C9 witness: the checkpoint write of a concrete feed-mode run targets the
resume-token collection, not the source collection. -/
theorem c9_witness :
    (StoreOp.persistToken Coll.customersResumeToken 7) ∈
      (run initState [.change (some sampleDoc) 7, .tick]).trace ∧
    (StoreOp.persistToken Coll.customersResumeToken 7).target ≠ Coll.customers :=
  ⟨by decide,
   c9_no_writes_to_source_collection.1 [.change (some sampleDoc) 7, .tick] _ (by decide) (by decide)⟩

end Sync
